import Mathlib

/-!
Shallow embedding of the tinyurl-rs-service core (short-code generation,
two-tier cache, URL resolution service) and proofs of the specification
claims about it.

Modelling conventions:
* machine integers are Nat/Int with explicit mod where overflow matters;
* the remote Redis tier is a store of entries with optional expiry, and each
  cache call takes a Bool oracle saying whether the primary connection and
  command succeeded (false covers both no-connection and command error, which
  the source treats identically);
* the Postgres repository is a list of records; SQL queries are translated
  statement by statement;
* randomness (the generator), the SHA-256 digest and URL parsing are external
  primitives, supplied as oracles;
* fallible Rust code returning Result is embedded as Except AppError.
-/

/-- Application error taxonomy, from models/error.rs. -/
inductive AppError where
  | Database (msg : String)
  | Redis (msg : String)
  | NotFound (msg : String)
  | InvalidUrl (msg : String)
  | AlreadyExists (msg : String)
  | Internal (msg : String)
  | Validation (msg : String)
deriving DecidableEq

/-- Cache entry for the in-memory fallback tier, from cache_service.rs. -/
structure CacheEntry where
  value : String
  expires_at : Nat
deriving DecidableEq

/-- Entry of the remote Redis store; expires_at none means the key persists
(Redis INCR on a fresh key sets no TTL, SET EX sets one). -/
structure RedisEntry where
  value : String
  expires_at : Option Nat
deriving DecidableEq

/-- URL entity representing a shortened URL in the database, models/url.rs. -/
structure TinyUrl where
  id : Int
  short_code : String
  long_url : String
  qr_code : Option String
  clicks : Int
  created_at : Nat
  updated_at : Nat
deriving DecidableEq

/-- Request to create a shortened URL, models/dto.rs. -/
structure CreateUrlRequest where
  url : String
  custom_code : Option String
deriving DecidableEq

/-- Response when creating a shortened URL, models/dto.rs. -/
structure CreateUrlResponse where
  short_url : String
  long_url : String
  short_code : String
  qr_code : Option String
deriving DecidableEq

/-- URL statistics response, models/dto.rs. -/
structure UrlStatsResponse where
  short_code : String
  long_url : String
  clicks : Int
  created_at : Nat
  updated_at : Nat
deriving DecidableEq

/-- Association-list lookup: first binding of the key, modelling a map read. -/
def alookup {α : Type} : List (String × α) → String → Option α
  | [], _ => none
  | (k, v) :: rest, key => if k = key then some v else alookup rest key

/-- Association-list removal of every binding of the key (map remove). -/
def aremove {α : Type} : List (String × α) → String → List (String × α)
  | [], _ => []
  | (k, v) :: rest, key =>
      if k = key then aremove rest key else (k, v) :: aremove rest key

/-- Association-list insert-or-overwrite (map insert). -/
def ainsert {α : Type} (m : List (String × α)) (key : String) (v : α) :
    List (String × α) :=
  (key, v) :: aremove m key

/-- State of the two cache tiers of RedisCacheService: the remote Redis store
and the in-process fallback DashMap. -/
structure CacheState where
  redis : List (String × RedisEntry)
  fallback_cache : List (String × CacheEntry)
deriving DecidableEq

/-- Default TTL of RedisCacheService::new, 3600 seconds. -/
def redis_default_ttl : Nat := 3600

/-- Digit list to Nat accumulator for integer parsing. -/
def digitsToNatCore : List Char → Nat → Option Nat
  | [], acc => some acc
  | c :: rest, acc =>
      if c.isDigit then digitsToNatCore rest (acc * 10 + (c.toNat - 48))
      else none

/-- Nonempty all-digit character list to its numeric value. -/
def digitsToNat (cs : List Char) : Option Nat :=
  match cs with
  | [] => none
  | _ :: _ => digitsToNatCore cs 0

/-- Signed decimal integer syntax of Rust FromStr for integers: optional sign
followed by one or more ASCII digits. -/
def parseIntCore (cs : List Char) : Option Int :=
  match cs with
  | '+' :: rest => (digitsToNat rest).map (fun n => (n : Int))
  | '-' :: rest => (digitsToNat rest).map (fun n => -(n : Int))
  | _ => (digitsToNat cs).map (fun n => (n : Int))

def i32_min : Int := -(2 ^ 31)
def i32_max : Int := 2 ^ 31 - 1
def i64_min : Int := -(2 ^ 63)
def i64_max : Int := 2 ^ 63 - 1

/-- Rust str::parse for i32: range-checked signed decimal. -/
def parse_i32 (s : String) : Option Int :=
  match parseIntCore s.data with
  | none => none
  | some n => if i32_min ≤ n ∧ n ≤ i32_max then some n else none

/-- Rust str::parse for i64: range-checked signed decimal. -/
def parse_i64 (s : String) : Option Int :=
  match parseIntCore s.data with
  | none => none
  | some n => if i64_min ≤ n ∧ n ≤ i64_max then some n else none

/-- Redis GET semantics over the modelled store: value if present and
unexpired at the current instant. -/
def redis_lookup (m : List (String × RedisEntry)) (key : String) (now : Nat) :
    Option String :=
  match alookup m key with
  | none => none
  | some e =>
    match e.expires_at with
    | none => some e.value
    | some t => if now < t then some e.value else none

/-- Redis INCR semantics: absent or expired key becomes 1 with no TTL; a live
integer value is incremented preserving its TTL; a non-integer value or an
overflow is a command error (none). -/
def redis_incr (m : List (String × RedisEntry)) (key : String) (now : Nat) :
    Option (Int × List (String × RedisEntry)) :=
  match alookup m key with
  | none => some (1, ainsert m key ⟨"1", none⟩)
  | some e =>
    match e.expires_at with
    | some t =>
      if now < t then
        match parse_i64 e.value with
        | none => none
        | some n =>
          if n + 1 ≤ i64_max then
            some (n + 1, ainsert m key ⟨toString (n + 1), some t⟩)
          else none
      else some (1, ainsert m key ⟨"1", none⟩)
    | none =>
      match parse_i64 e.value with
      | none => none
      | some n =>
        if n + 1 ≤ i64_max then
          some (n + 1, ainsert m key ⟨toString (n + 1), none⟩)
        else none

/-- Clean expired entries from the in-memory cache (cleanup_expired of
cache_service.rs: retain entries with expires_at > now). -/
def cleanup_expired (fc : List (String × CacheEntry)) (now : Nat) :
    List (String × CacheEntry) :=
  fc.filter (fun p => decide (now < p.2.expires_at))

/-- CacheService::get of RedisCacheService (cache_service.rs lines 61-83).
avail is true when a Redis connection was obtained and the GET command
succeeded; in that case the Redis answer is returned directly. Otherwise the
fallback map is swept of expired entries and consulted. -/
def RedisCacheService.get (avail : Bool) (cs : CacheState) (key : String)
    (now : Nat) : Except AppError (Option String) × CacheState :=
  if avail then
    (.ok (redis_lookup cs.redis key now), cs)
  else
    let fc1 := cleanup_expired cs.fallback_cache now
    match alookup fc1 key with
    | some entry =>
      if now < entry.expires_at then
        (.ok (some entry.value), { cs with fallback_cache := fc1 })
      else
        (.ok none, { cs with fallback_cache := aremove fc1 key })
    | none => (.ok none, { cs with fallback_cache := fc1 })

/-- CacheService::set of RedisCacheService (cache_service.rs lines 85-105).
On a successful primary SET EX the function returns at once; only on primary
unavailability or error is the fallback map written. -/
def RedisCacheService.set (avail : Bool) (cs : CacheState) (key value : String)
    (ttl_seconds now : Nat) : Except AppError Unit × CacheState :=
  if avail then
    (.ok (), { cs with redis := ainsert cs.redis key ⟨value, some (now + ttl_seconds)⟩ })
  else
    (.ok (),
      { cs with fallback_cache :=
          ainsert cs.fallback_cache key ⟨value, now + ttl_seconds⟩ })

/-- CacheService::delete of RedisCacheService (cache_service.rs lines
107-120): best-effort primary delete, then unconditional fallback removal. -/
def RedisCacheService.delete (avail : Bool) (cs : CacheState) (key : String) :
    Except AppError Unit × CacheState :=
  let redis1 := if avail then aremove cs.redis key else cs.redis
  (.ok (), { redis := redis1, fallback_cache := aremove cs.fallback_cache key })

/-- CacheService::increment_clicks of RedisCacheService (cache_service.rs
lines 122-146): primary INCR when available and successful, otherwise a
read-modify-write of the fallback entry (default value 0, parse failures
coerce to 0, expiry of an existing entry preserved). -/
def RedisCacheService.increment_clicks (avail : Bool) (cs : CacheState)
    (short_code : String) (now : Nat) : Except AppError Int × CacheState :=
  let clicks_key := "clicks:" ++ short_code
  match (if avail then redis_incr cs.redis clicks_key now else none) with
  | some (count, redis1) => (.ok count, { cs with redis := redis1 })
  | none =>
    let entry :=
      match alookup cs.fallback_cache clicks_key with
      | some e => e
      | none => ⟨"0", now + redis_default_ttl⟩
    let current_count := (parse_i64 entry.value).getD 0
    let new_count := current_count + 1
    let new_entry : CacheEntry := ⟨toString new_count, entry.expires_at⟩
    (.ok new_count,
      { cs with fallback_cache := ainsert cs.fallback_cache clicks_key new_entry })

/-- Base62 alphabet for short codes, short_code_generator.rs. -/
def BASE62_ALPHABET : List Char :=
  "0123456789ABCDEFGHIJKLMNOPQRSTUVWXYZabcdefghijklmnopqrstuvwxyz".data

/-- Modulus of 64-bit unsigned arithmetic. -/
def u64_mod : Nat := 2 ^ 64

/-- Folding of the first 8 digest bytes into a u64 by additive byte-shifting
(bytes_to_base62 lines 60-63: num = num.wrapping_add(byte << (i * 8))). -/
def fold_bytes (bytes : List Nat) : Nat :=
  ((bytes.take 8).enum).foldl
    (fun num p => (num + (p.2 % 256) * 2 ^ (8 * p.1)) % u64_mod) 0

/-- Base62 emission loop of bytes_to_base62 (lines 66-76): while fewer than
length characters, push alphabet[num mod 62], divide num by 62, and reseed num
from the random stream rng when it reaches zero. The countdown argument is
length minus the characters already emitted, so the recursion mirrors the
while condition result.len() < length exactly. -/
def base62_loop (rng : Nat → Nat) (r_idx : Nat) (num : Nat) (acc : List Char) :
    Nat → List Char
  | 0 => acc
  | remaining + 1 =>
    let remainder := num % 62
    let acc1 := acc ++ [BASE62_ALPHABET.getD remainder 'A']
    let num1 := num / 62
    if num1 = 0 then
      base62_loop rng (r_idx + 1) (rng r_idx % u64_mod) acc1 remaining
    else
      base62_loop rng r_idx num1 acc1 remaining

/-- bytes_to_base62 of short_code_generator.rs (lines 56-79). The random
source is the oracle rng, giving the successive u64 reseeds. -/
def bytes_to_base62 (rng : Nat → Nat) (bytes : List Nat) (length : Nat) :
    List Char :=
  base62_loop rng 0 (fold_bytes bytes) [] length

/-- ShortCodeGenerator::generate of DefaultShortCodeGenerator (lines 14-29).
The SHA-256 digest of url concatenated with timestamp and random nonce is an
external primitive, supplied as the oracle digest (its first 8 bytes are what
the code consumes); rng supplies the reseeds used inside bytes_to_base62. -/
def ShortCodeGenerator.generate (digest : List Nat) (rng : Nat → Nat)
    (length : Nat) : String :=
  ⟨bytes_to_base62 rng (digest.take 8) length⟩

/-- ShortCodeGenerator::generate_custom (short_code_generator.rs lines 31-47):
non-empty, custom_code.len() at most 20 (the UTF-8 byte length of a Rust
String, String.utf8ByteSize here), and every character alphanumeric or a
hyphen. Rust char::is_alphanumeric is Unicode-aware, an external primitive of
the standard library; it is supplied as the oracle isAlnum (on the ASCII
range it agrees with Char.isAlphanum, which theorems assume as a hypothesis
where concrete characters matter). -/
def ShortCodeGenerator.generate_custom (isAlnum : Char → Bool)
    (custom_code : String) : Except AppError String :=
  if custom_code.isEmpty || decide (custom_code.utf8ByteSize > 20) then
    .error (.Validation "Custom code must be between 1 and 20 characters")
  else if !(custom_code.data.all (fun c => isAlnum c || c == '-')) then
    .error (.Validation "Custom code can only contain alphanumeric characters and hyphens")
  else
    .ok custom_code

/-- TinyUrl::new (models/url.rs lines 29-40). -/
def TinyUrl.new (short_code long_url : String) (now : Nat) : TinyUrl :=
  { id := 0, short_code := short_code, long_url := long_url, qr_code := none,
    clicks := 0, created_at := now, updated_at := now }

/-- TinyUrl::increment_clicks (models/url.rs lines 42-45). -/
def TinyUrl.increment_clicks (u : TinyUrl) (now : Nat) : TinyUrl :=
  { u with clicks := u.clicks + 1, updated_at := now }

/-- Repository find_by_short_code (repository.rs lines 84-97): the record
whose short_code equals the key (unique by the table constraint; the model
returns the first match). -/
def find_by_short_code (db : List TinyUrl) (short_code : String) :
    Option TinyUrl :=
  db.find? (fun r => decide (r.short_code = short_code))

/-- Most-recently-created record of a list: ORDER BY created_at DESC LIMIT 1
(first listed wins ties). -/
def mostRecent : List TinyUrl → Option TinyUrl
  | [] => none
  | r :: rest =>
    match mostRecent rest with
    | none => some r
    | some b => if b.created_at > r.created_at then some b else some r

/-- Repository find_by_long_url (repository.rs lines 99-114): among records
with this exact long_url, the most recently created one. -/
def find_by_long_url (db : List TinyUrl) (long_url : String) : Option TinyUrl :=
  mostRecent (db.filter (fun r => decide (r.long_url = long_url)))

/-- Repository create (repository.rs lines 64-82): INSERT RETURNING, with the
serial id assigned by the database. -/
def repo_create (db : List TinyUrl) (url : TinyUrl) : TinyUrl × List TinyUrl :=
  let saved := { url with id := (db.length : Int) + 1 }
  (saved, db ++ [saved])

/-- Repository update (repository.rs lines 116-134): UPDATE ... WHERE
short_code, rewriting long_url, qr_code, clicks and updated_at. -/
def repo_update (db : List TinyUrl) (url : TinyUrl) : List TinyUrl :=
  db.map (fun r =>
    if r.short_code = url.short_code then
      { r with long_url := url.long_url, qr_code := url.qr_code,
               clicks := url.clicks, updated_at := url.updated_at }
    else r)

/-- Repository get_stats (repository.rs lines 149-152): same as
find_by_short_code for now. -/
def repo_get_stats (db : List TinyUrl) (short_code : String) : Option TinyUrl :=
  find_by_short_code db short_code

/-- Repository exists (repository.rs lines 154-165): SELECT 1 WHERE
short_code, as a boolean. -/
def existsCode (db : List TinyUrl) (short_code : String) : Bool :=
  db.any (fun r => decide (r.short_code = short_code))

/-- CreateUrlRequest::validate (models/dto.rs lines 60-86). Url::parse and
char::is_alphanumeric are external library primitives, supplied as the
oracles urlOk and isAlnum; code.len() is the UTF-8 byte length. -/
def CreateUrlRequest.validate (urlOk : String → Bool) (isAlnum : Char → Bool)
    (req : CreateUrlRequest) : Except AppError Unit :=
  if !(urlOk req.url) then
    .error (.InvalidUrl "Invalid URL format")
  else
    match req.custom_code with
    | some code =>
      if code.isEmpty || decide (code.utf8ByteSize > 20) then
        .error (.Validation "Custom code must be between 1 and 20 characters")
      else if !(code.data.all (fun c => isAlnum c || c == '-')) then
        .error (.Validation "Custom code can only contain alphanumeric characters and hyphens")
      else
        .ok ()
    | none => .ok ()

/-- Service configuration held by DefaultUrlService (url_service.rs lines
15-21): base URL, default code length, cache TTL. -/
structure ServiceConfig where
  base_url : String
  default_short_code_length : Nat
  cache_ttl : Nat
deriving DecidableEq

/-- Full system state: the durable store and both cache tiers. -/
structure SysState where
  db : List TinyUrl
  cache : CacheState
deriving DecidableEq

/-- MAX_ATTEMPTS of generate_unique_short_code. -/
def MAX_ATTEMPTS : Nat := 10

/-- Collision-detection loop of generate_unique_short_code (url_service.rs
lines 63-75): while attempts < MAX_ATTEMPTS, call generate and return the
first code not present in the durable store. The generator is randomized, so
the i-th call's output is the oracle value gen i; the fuel argument equals
MAX_ATTEMPTS - attempts, making the while loop structurally recursive. -/
def genLoop (db : List TinyUrl) (gen : Nat → String) :
    Nat → Nat → Except AppError String
  | _, 0 =>
    .error (.Internal "Failed to generate unique short code after maximum attempts")
  | attempts, fuel + 1 =>
    let code := gen attempts
    if existsCode db code then genLoop db gen (attempts + 1) fuel
    else .ok code

/-- generate_unique_short_code of DefaultUrlService (url_service.rs lines
48-80): custom codes are shape-validated then checked for existence; otherwise
the collision loop runs with MAX_ATTEMPTS fuel. -/
def generate_unique_short_code (db : List TinyUrl) (gen : Nat → String)
    (isAlnum : Char → Bool) (custom_code : Option String) :
    Except AppError String :=
  match custom_code with
  | some custom =>
    match ShortCodeGenerator.generate_custom isAlnum custom with
    | .error e => .error e
    | .ok code =>
      if existsCode db code then
        .error (.AlreadyExists ("Custom code " ++ custom ++ " already exists"))
      else
        .ok code
  | none => genLoop db gen 0 MAX_ATTEMPTS

/-- Strip trailing slash characters, base_url.trim_end_matches of
build_short_url. -/
def trim_end_slashes (s : String) : String :=
  ⟨(s.data.reverse.dropWhile (fun c => c == '/')).reverse⟩

/-- build_short_url of DefaultUrlService (url_service.rs lines 83-85). -/
def build_short_url (base_url short_code : String) : String :=
  trim_end_slashes base_url ++ "/" ++ short_code

/-- UrlService::create_short_url of DefaultUrlService (url_service.rs lines
95-131): validate, dedup by long URL, generate a unique code, persist, then
write-through the cache. a_set is the availability oracle of the one cache
set; gen and urlOk are the generator and URL-parse oracles. -/
def DefaultUrlService.create_short_url (urlOk : String → Bool)
    (isAlnum : Char → Bool) (gen : Nat → String) (a_set : Bool)
    (cfg : ServiceConfig) (now : Nat) (st : SysState)
    (request : CreateUrlRequest) :
    Except AppError CreateUrlResponse × SysState :=
  match CreateUrlRequest.validate urlOk isAlnum request with
  | .error e => (.error e, st)
  | .ok _ =>
    match find_by_long_url st.db request.url with
    | some existing =>
      (.ok { short_url := build_short_url cfg.base_url existing.short_code,
             long_url := existing.long_url,
             short_code := existing.short_code,
             qr_code := existing.qr_code }, st)
    | none =>
      match generate_unique_short_code st.db gen isAlnum request.custom_code with
      | .error e => (.error e, st)
      | .ok short_code =>
        let url := TinyUrl.new short_code request.url now
        let created := repo_create st.db url
        let saved_url := created.1
        match RedisCacheService.set a_set st.cache short_code saved_url.long_url
            cfg.cache_ttl now with
        | (.error e, cs1) => (.error e, { db := created.2, cache := cs1 })
        | (.ok _, cs1) =>
          (.ok { short_url := build_short_url cfg.base_url saved_url.short_code,
                 long_url := saved_url.long_url,
                 short_code := saved_url.short_code,
                 qr_code := saved_url.qr_code },
           { db := created.2, cache := cs1 })

/-- UrlService::get_original_url of DefaultUrlService (url_service.rs lines
133-167): cache first (with a fire-and-forget click increment on a hit); on a
miss read the durable record or fail NotFound, re-cache it, and schedule a
background click-count update. bg tells whether the detached update task has
already been applied to the durable store. -/
def DefaultUrlService.get_original_url (a_get a_incr a_set bg : Bool)
    (cfg : ServiceConfig) (now : Nat) (st : SysState) (short_code : String) :
    Except AppError String × SysState :=
  match RedisCacheService.get a_get st.cache short_code now with
  | (.error e, cs1) => (.error e, { st with cache := cs1 })
  | (.ok (some cached_url), cs1) =>
    let incr := RedisCacheService.increment_clicks a_incr cs1 short_code now
    (.ok cached_url, { st with cache := incr.2 })
  | (.ok none, cs1) =>
    match find_by_short_code st.db short_code with
    | none =>
      (.error (.NotFound ("Short code " ++ short_code ++ " not found")),
       { st with cache := cs1 })
    | some url =>
      match RedisCacheService.set a_set cs1 short_code url.long_url
          cfg.cache_ttl now with
      | (.error e, cs2) => (.error e, { db := st.db, cache := cs2 })
      | (.ok _, cs2) =>
        let updated_url := TinyUrl.increment_clicks url now
        let db1 := if bg then repo_update st.db updated_url else st.db
        (.ok url.long_url, { db := db1, cache := cs2 })

/-- UrlService::get_url_stats of DefaultUrlService (url_service.rs lines
169-190): durable record first (NotFound if absent), then prefer a parseable
cache-resident clicks counter over the durable click count. -/
def DefaultUrlService.get_url_stats (a_get : Bool) (st : SysState)
    (short_code : String) (now : Nat) :
    Except AppError UrlStatsResponse × SysState :=
  match repo_get_stats st.db short_code with
  | none =>
    (.error (.NotFound ("Short code " ++ short_code ++ " not found")), st)
  | some url =>
    match RedisCacheService.get a_get st.cache ("clicks:" ++ short_code) now with
    | (.error e, cs1) => (.error e, { st with cache := cs1 })
    | (.ok ocached, cs1) =>
      let cache_clicks :=
        match ocached with
        | some cached_clicks => (parse_i32 cached_clicks).getD url.clicks
        | none => url.clicks
      (.ok { short_code := url.short_code, long_url := url.long_url,
             clicks := cache_clicks, created_at := url.created_at,
             updated_at := url.updated_at },
       { st with cache := cs1 })

/-- Record inserted by create_short_url for a fresh code, as produced by
repo_create applied to TinyUrl.new. -/
def savedRecord (db : List TinyUrl) (code u : String) (now : Nat) : TinyUrl :=
  ⟨(db.length : Int) + 1, code, u, none, 0, now, now⟩

/-- Uniqueness of short codes across the durable store, modelling the UNIQUE
constraint on the short_code column of the tinyurls table. -/
def codes_unique (db : List TinyUrl) : Prop :=
  ∀ r1 ∈ db, ∀ r2 ∈ db, r1.short_code = r2.short_code → r1 = r2

/-- Coherence of both cache tiers with the durable store: every cached entry
maps the short code of some durable record to that record's long URL. This is
the invariant maintained by the write paths of the service for url-mapping
keys. -/
def cache_coherent (db : List TinyUrl) (cs : CacheState) : Prop :=
  (∀ p ∈ cs.redis, ∃ r, r ∈ db ∧ r.short_code = p.1 ∧ r.long_url = p.2.value) ∧
  (∀ p ∈ cs.fallback_cache,
    ∃ r, r ∈ db ∧ r.short_code = p.1 ∧ r.long_url = p.2.value)

/-! Helper lemmas about the map model, the repository queries and the
generation loop, shared by the claim theorems. -/

theorem alookup_mem {α : Type} {m : List (String × α)} {k : String} {v : α}
    (h : alookup m k = some v) : (k, v) ∈ m := by
  induction m with
  | nil => simp [alookup] at h
  | cons p rest ih =>
    obtain ⟨k1, v1⟩ := p
    by_cases hk : k1 = k
    · subst hk
      simp [alookup] at h
      simp [h]
    · simp [alookup, hk] at h
      exact List.mem_cons_of_mem _ (ih h)

theorem mem_aremove {α : Type} {m : List (String × α)} {k : String}
    {p : String × α} (h : p ∈ aremove m k) : p ∈ m := by
  induction m with
  | nil => simp [aremove] at h
  | cons q rest ih =>
    obtain ⟨k1, v1⟩ := q
    by_cases hk : k1 = k
    · simp [aremove, hk] at h
      exact List.mem_cons_of_mem _ (ih h)
    · simp [aremove, hk] at h
      rcases h with h | h
      · simp [h]
      · exact List.mem_cons_of_mem _ (ih h)

theorem mem_cleanup {fc : List (String × CacheEntry)} {now : Nat}
    {p : String × CacheEntry} (h : p ∈ cleanup_expired fc now) : p ∈ fc :=
  (List.mem_filter.mp h).1

theorem redis_lookup_some {m : List (String × RedisEntry)} {k : String}
    {now : Nat} {v : String} (h : redis_lookup m k now = some v) :
    ∃ e, alookup m k = some e ∧ e.value = v := by
  unfold redis_lookup at h
  cases he : alookup m k with
  | none => simp [he] at h
  | some e =>
    simp only [he] at h
    refine ⟨e, rfl, ?_⟩
    cases het : e.expires_at with
    | none => simp [het] at h; exact h
    | some t =>
      simp only [het] at h
      by_cases hn : now < t
      · rw [if_pos hn] at h; exact Option.some.inj h
      · rw [if_neg hn] at h; exact Option.noConfusion h

theorem find_by_short_code_mem {db : List TinyUrl} {code : String} {r : TinyUrl}
    (h : find_by_short_code db code = some r) : r ∈ db ∧ r.short_code = code := by
  refine ⟨List.mem_of_find?_eq_some h, ?_⟩
  have := List.find?_some h
  simpa using this

theorem find_by_short_code_isSome {db : List TinyUrl} {code : String}
    (r : TinyUrl) (hr : r ∈ db) (hc : r.short_code = code) :
    ∃ r2, find_by_short_code db code = some r2 := by
  have : (db.find? (fun r => decide (r.short_code = code))).isSome := by
    rw [List.find?_isSome]
    exact ⟨r, hr, by simp [hc]⟩
  rcases Option.isSome_iff_exists.mp this with ⟨r2, h2⟩
  exact ⟨r2, h2⟩

theorem mostRecent_mem {l : List TinyUrl} {r : TinyUrl}
    (h : mostRecent l = some r) : r ∈ l := by
  induction l generalizing r with
  | nil => simp [mostRecent] at h
  | cons x rest ih =>
    simp only [mostRecent] at h
    cases hm : mostRecent rest with
    | none => rw [hm] at h; simp at h; simp [h]
    | some b =>
      rw [hm] at h
      by_cases hgt : b.created_at > x.created_at
      · simp [hgt] at h
        exact List.mem_cons_of_mem _ (ih (hm.trans (by rw [h])))
      · simp [hgt] at h
        simp [h]

theorem mostRecent_ne_nil {l : List TinyUrl} (h : l ≠ []) :
    ∃ r, mostRecent l = some r := by
  cases l with
  | nil => exact absurd rfl h
  | cons x rest =>
    simp only [mostRecent]
    cases hm : mostRecent rest with
    | none => exact ⟨x, rfl⟩
    | some b => by_cases hgt : b.created_at > x.created_at <;> simp [hgt]

theorem mostRecent_max {l : List TinyUrl} {r : TinyUrl}
    (h : mostRecent l = some r) : ∀ x ∈ l, x.created_at ≤ r.created_at := by
  induction l generalizing r with
  | nil => simp [mostRecent] at h
  | cons x rest ih =>
    intro y hy
    simp only [mostRecent] at h
    cases hm : mostRecent rest with
    | none =>
      simp only [hm] at h
      have hrest : rest = [] := by
        by_contra hne
        rcases mostRecent_ne_nil hne with ⟨c, hc⟩
        rw [hc] at hm
        exact Option.noConfusion hm
      subst hrest
      have hxr : x = r := Option.some.inj h
      have hyx : y = x := by simpa using hy
      rw [hyx, hxr]
    | some b =>
      simp only [hm] at h
      rcases List.mem_cons.mp hy with hyx | hyr
      · by_cases hgt : b.created_at > x.created_at
        · rw [if_pos hgt] at h
          have hbr : b = r := Option.some.inj h
          rw [hyx, ← hbr]
          omega
        · rw [if_neg hgt] at h
          have hxr : x = r := Option.some.inj h
          rw [hyx, ← hxr]
      · have hb := ih hm y hyr
        by_cases hgt : b.created_at > x.created_at
        · rw [if_pos hgt] at h
          have hbr : b = r := Option.some.inj h
          rw [← hbr]
          exact hb
        · rw [if_neg hgt] at h
          have hxr : x = r := Option.some.inj h
          rw [← hxr]
          omega

theorem find_by_long_url_spec {db : List TinyUrl} {u : String} {r : TinyUrl}
    (h : find_by_long_url db u = some r) :
    r ∈ db ∧ r.long_url = u ∧
      ∀ x ∈ db, x.long_url = u → x.created_at ≤ r.created_at := by
  unfold find_by_long_url at h
  have hmem := mostRecent_mem h
  have hmax := mostRecent_max h
  have hm := List.mem_filter.mp hmem
  refine ⟨hm.1, by simpa using hm.2, ?_⟩
  intro x hx hxu
  exact hmax x (List.mem_filter.mpr ⟨hx, by simp [hxu]⟩)

theorem find_by_long_url_none {db : List TinyUrl} {u : String}
    (h : find_by_long_url db u = none) : ∀ x ∈ db, x.long_url ≠ u := by
  intro x hx hxu
  unfold find_by_long_url at h
  have hne : db.filter (fun r => decide (r.long_url = u)) ≠ [] := by
    intro hnil
    have : x ∈ db.filter (fun r => decide (r.long_url = u)) :=
      List.mem_filter.mpr ⟨hx, by simp [hxu]⟩
    rw [hnil] at this
    simp at this
  rcases mostRecent_ne_nil hne with ⟨r, hr⟩
  rw [hr] at h
  exact Option.noConfusion h

theorem existsCode_false_iff {db : List TinyUrl} {code : String} :
    existsCode db code = false ↔ ∀ r ∈ db, r.short_code ≠ code := by
  unfold existsCode
  rw [← Bool.not_eq_true, List.any_eq_true]
  simp

theorem genLoop_ok_fresh {db : List TinyUrl} {gen : Nat → String} :
    ∀ fuel attempts code, genLoop db gen attempts fuel = .ok code →
      existsCode db code = false := by
  intro fuel
  induction fuel with
  | zero => intro a c h; simp [genLoop] at h
  | succ n ih =>
    intro a c h
    simp only [genLoop] at h
    by_cases hex : existsCode db (gen a) = true
    · rw [if_pos hex] at h
      exact ih (a + 1) c h
    · rw [if_neg hex] at h
      have hc : gen a = c := by exact Except.ok.inj h
      subst hc
      exact Bool.not_eq_true _ ▸ hex

theorem genLoop_all_collide {db : List TinyUrl} {gen : Nat → String} :
    ∀ fuel attempts,
      (∀ i, attempts ≤ i → i < attempts + fuel → existsCode db (gen i) = true) →
      genLoop db gen attempts fuel =
        .error (.Internal "Failed to generate unique short code after maximum attempts") := by
  intro fuel
  induction fuel with
  | zero => intro a _; simp [genLoop]
  | succ n ih =>
    intro a h
    have ha : existsCode db (gen a) = true := h a le_rfl (by omega)
    simp only [genLoop]
    rw [if_pos ha]
    exact ih (a + 1) (fun i h1 h2 => h i (by omega) (by omega))

theorem genLoop_first_wins {db : List TinyUrl} {gen : Nat → String} :
    ∀ fuel attempts j, attempts ≤ j → j < attempts + fuel →
      (∀ i, attempts ≤ i → i < j → existsCode db (gen i) = true) →
      existsCode db (gen j) = false →
      genLoop db gen attempts fuel = .ok (gen j) := by
  intro fuel
  induction fuel with
  | zero => intro a j h1 h2 _ _; omega
  | succ n ih =>
    intro a j h1 h2 hall hj
    simp only [genLoop]
    by_cases haj : a = j
    · subst haj
      rw [if_neg (by simp [hj])]
    · have ha : existsCode db (gen a) = true := hall a le_rfl (by omega)
      rw [if_pos ha]
      exact ih (a + 1) j (by omega) (by omega)
        (fun i hi1 hi2 => hall i (by omega) hi2) hj

theorem genLoop_congr {db : List TinyUrl} {gen gen2 : Nat → String} :
    ∀ fuel attempts,
      (∀ i, attempts ≤ i → i < attempts + fuel → gen2 i = gen i) →
      genLoop db gen2 attempts fuel = genLoop db gen attempts fuel := by
  intro fuel
  induction fuel with
  | zero => intro a _; simp [genLoop]
  | succ n ih =>
    intro a h
    have ha : gen2 a = gen a := h a le_rfl (by omega)
    simp only [genLoop, ha]
    by_cases hex : existsCode db (gen a) = true
    · rw [if_pos hex, if_pos hex]
      exact ih (a + 1) (fun i h1 h2 => h i (by omega) (by omega))
    · rw [if_neg hex, if_neg hex]

theorem base62_length_eq : BASE62_ALPHABET.length = 62 := by decide

theorem getD_base62_mem (n : Nat) :
    BASE62_ALPHABET.getD (n % 62) 'A' ∈ BASE62_ALPHABET := by
  have h : n % 62 < BASE62_ALPHABET.length := by
    rw [base62_length_eq]
    exact Nat.mod_lt n (by decide)
  rw [List.getD_eq_getElem?_getD, List.getElem?_eq_getElem h]
  simp only [Option.getD_some]
  exact List.getElem_mem h

theorem base62_loop_length (rng : Nat → Nat) :
    ∀ n r_idx num acc, (base62_loop rng r_idx num acc n).length = acc.length + n := by
  intro n
  induction n with
  | zero => intro r_idx num acc; simp [base62_loop]
  | succ m ih =>
    intro r_idx num acc
    simp only [base62_loop]
    by_cases hz : num / 62 = 0
    · rw [if_pos hz, ih]
      simp
      omega
    · rw [if_neg hz, ih]
      simp
      omega

theorem base62_loop_mem (rng : Nat → Nat) :
    ∀ n r_idx num acc, (∀ c ∈ acc, c ∈ BASE62_ALPHABET) →
      ∀ c ∈ base62_loop rng r_idx num acc n, c ∈ BASE62_ALPHABET := by
  intro n
  induction n with
  | zero => intro _ _ acc hacc c hc; simp only [base62_loop] at hc; exact hacc c hc
  | succ m ih =>
    intro r_idx num acc hacc c hc
    simp only [base62_loop] at hc
    have hacc1 : ∀ d ∈ acc ++ [BASE62_ALPHABET.getD (num % 62) 'A'],
        d ∈ BASE62_ALPHABET := by
      intro d hd
      rcases List.mem_append.mp hd with h | h
      · exact hacc d h
      · rw [List.mem_singleton.mp h]
        exact getD_base62_mem num
    by_cases hz : num / 62 = 0
    · rw [if_pos hz] at hc
      exact ih _ _ _ hacc1 c hc
    · rw [if_neg hz] at hc
      exact ih _ _ _ hacc1 c hc

/-- C9: for every digest (the SHA-256 output bytes are an oracle, so the
statement covers every seed string) and every length, generate terminates (it
is a total function here because each loop iteration emits exactly one
character) and returns a string of exactly length characters, each drawn from
the 62-symbol Base62 alphabet, including when the folded 64-bit accumulator
reaches zero and is reseeded from the random stream. -/
theorem C9_generator_output_shape (digest : List Nat) (rng : Nat → Nat)
    (length : Nat) :
    (ShortCodeGenerator.generate digest rng length).length = length ∧
    (∀ c ∈ (ShortCodeGenerator.generate digest rng length).data,
      c ∈ BASE62_ALPHABET) ∧
    BASE62_ALPHABET.length = 62 := by
  refine ⟨?_, ?_, base62_length_eq⟩
  · show (bytes_to_base62 rng (digest.take 8) length).length = length
    unfold bytes_to_base62
    rw [base62_loop_length]
    simp
  · intro c hc
    exact base62_loop_mem rng length 0 (fold_bytes (digest.take 8)) []
      (by intro d hd; simp at hd) c hc

/-- Witness for C9 at a concrete input: the single character produced for the
empty digest with the zero random stream is in the Base62 alphabet. -/
theorem C9_generator_output_shape_witness : '0' ∈ BASE62_ALPHABET :=
  (C9_generator_output_shape [] (fun _ => 0) 1).2.1 '0' (by decide)

/-- C6 counterexample: the claim characterizes acceptance as non-empty, at
most 20 characters, all alphanumeric-or-hyphen. The source instead bounds
custom_code.len(), the UTF-8 byte length. The 11-character code of eleven
times the character with code point 233 (a Unicode alphanumeric, accepted by
Rust char::is_alphanumeric, here the all-true oracle) satisfies every
acceptance condition of the claim, yet the program rejects it with a
Validation error because its UTF-8 byte length is 22; the byte-length check
precedes the character check, so the rejection is the same for every
alphanumeric oracle. -/
theorem C6_counterexample :
    ("ééééééééééé" : String) ≠ "" ∧
    ("ééééééééééé" : String).length = 11 ∧
    (∀ c ∈ ("ééééééééééé" : String).data,
      (fun _ => true : Char → Bool) c = true ∨ c = '-') ∧
    ("ééééééééééé" : String).utf8ByteSize = 22 ∧
    ShortCodeGenerator.generate_custom (fun _ => true) "ééééééééééé" =
      .error (.Validation "Custom code must be between 1 and 20 characters") := by
  refine ⟨by decide, by decide, fun c _ => Or.inl rfl, by decide, rfl⟩

/-- C6 amended: generate_custom returns the code unchanged exactly when it is
non-empty, at most 20 UTF-8 bytes long (which is at most 20 characters
exactly for ASCII-only codes), and made only of alphanumeric characters
(Rust char::is_alphanumeric, the oracle isAlnum, assumed to agree with the
ASCII classification on the ASCII range as the real primitive does) and
hyphens; every other input fails with a Validation error. The empty string, a
21-character ASCII code and a code with a bang are rejected, while a
hyphenated alphanumeric code is accepted. -/
theorem C6_custom_code_validation (isAlnum : Char → Bool)
    (hascii : ∀ c : Char, c.toNat < 128 → isAlnum c = c.isAlphanum) :
    (∀ code : String,
      (ShortCodeGenerator.generate_custom isAlnum code = .ok code ↔
        (code ≠ "" ∧ code.utf8ByteSize ≤ 20 ∧
          ∀ c ∈ code.data, isAlnum c = true ∨ c = '-')) ∧
      (¬(code ≠ "" ∧ code.utf8ByteSize ≤ 20 ∧
          ∀ c ∈ code.data, isAlnum c = true ∨ c = '-') →
        ∃ msg, ShortCodeGenerator.generate_custom isAlnum code =
          .error (.Validation msg))) ∧
    (∃ m1, ShortCodeGenerator.generate_custom isAlnum "" =
      .error (.Validation m1)) ∧
    (∃ m2, ShortCodeGenerator.generate_custom isAlnum "aaaaaaaaaaaaaaaaaaaaa" =
      .error (.Validation m2)) ∧
    (∃ m3, ShortCodeGenerator.generate_custom isAlnum "abc!" =
      .error (.Validation m3)) ∧
    ShortCodeGenerator.generate_custom isAlnum "abc-123" = .ok "abc-123" := by
  have ha : isAlnum 'a' = true := by rw [hascii 'a' (by decide)]; decide
  have hb : isAlnum 'b' = true := by rw [hascii 'b' (by decide)]; decide
  have hc : isAlnum 'c' = true := by rw [hascii 'c' (by decide)]; decide
  have hbang : isAlnum '!' = false := by rw [hascii '!' (by decide)]; decide
  have h1' : isAlnum '1' = true := by rw [hascii '1' (by decide)]; decide
  have h2' : isAlnum '2' = true := by rw [hascii '2' (by decide)]; decide
  have h3' : isAlnum '3' = true := by rw [hascii '3' (by decide)]; decide
  have hq : ('!' == '-') = false := by decide
  refine ⟨?_, ⟨_, rfl⟩, ⟨_, rfl⟩, ?_, ?_⟩
  · intro code
    unfold ShortCodeGenerator.generate_custom
    by_cases h1 : code.isEmpty || decide (code.utf8ByteSize > 20)
    · rw [if_pos h1]
      constructor
      · constructor
        · intro h; exact Except.noConfusion h
        · intro hshape
          exfalso
          rcases Bool.or_eq_true_iff.mp h1 with he | hl
          · exact hshape.1 ((String.isEmpty_iff code).mp he)
          · have := of_decide_eq_true hl
            omega
      · intro _
        exact ⟨_, rfl⟩
    · rw [if_neg h1]
      have hor : (code.isEmpty || decide (code.utf8ByteSize > 20)) = false :=
        Bool.eq_false_iff.mpr h1
      have h1'' := Bool.or_eq_false_iff.mp hor
      have hne : code ≠ "" := by
        intro hcempty
        rw [hcempty] at h1''
        exact absurd h1''.1 (by decide)
      have hle : code.utf8ByteSize ≤ 20 := by
        have := of_decide_eq_false h1''.2
        omega
      by_cases h2 : code.data.all (fun c => isAlnum c || c == '-')
      · rw [if_neg (by simp [h2])]
        have hall : ∀ c ∈ code.data, isAlnum c = true ∨ c = '-' := by
          intro c hcin
          have := List.all_eq_true.mp h2 c hcin
          rcases Bool.or_eq_true_iff.mp this with h | h
          · exact Or.inl h
          · exact Or.inr (by simpa using h)
        exact ⟨⟨fun _ => ⟨hne, hle, hall⟩, fun _ => rfl⟩,
          fun habs => absurd ⟨hne, hle, hall⟩ habs⟩
      · rw [if_pos (by simpa using h2)]
        constructor
        · constructor
          · intro h; exact Except.noConfusion h
          · intro hshape
            exfalso
            apply h2
            rw [List.all_eq_true]
            intro c hcin
            rcases hshape.2.2 c hcin with h | h
            · simp [h]
            · simp [h]
        · intro _
          exact ⟨_, rfl⟩
  · refine ⟨"Custom code can only contain alphanumeric characters and hyphens", ?_⟩
    have hall : ("abc!".data.all (fun c => isAlnum c || c == '-')) = false := by
      have hdata : ("abc!" : String).data = ['a', 'b', 'c', '!'] := rfl
      rw [hdata]
      simp [ha, hb, hc, hbang, hq]
    unfold ShortCodeGenerator.generate_custom
    rw [if_neg (by decide), if_pos (by simp [hall])]
  · have hall : ("abc-123".data.all (fun c => isAlnum c || c == '-')) = true := by
      have hdata : ("abc-123" : String).data = ['a', 'b', 'c', '-', '1', '2', '3'] := rfl
      rw [hdata]
      simp [ha, hb, hc, h1', h2', h3']
    unfold ShortCodeGenerator.generate_custom
    rw [if_neg (by decide), if_neg (by simp [hall])]

/-- Witness for the amended C6 at a concrete input: with the real ASCII
classification as the oracle, a code with a non-alphanumeric character is
rejected with a Validation error. -/
theorem C6_custom_code_validation_witness :
    ∃ msg, ShortCodeGenerator.generate_custom Char.isAlphanum "a!b" =
      .error (.Validation msg) :=
  ((C6_custom_code_validation Char.isAlphanum (fun _ _ => rfl)).1 "a!b").2
    (by decide)

/-- C7: for every key, value, TTL and current instant, and for every outcome
of the primary tier (availability oracle and arbitrary primary store
contents), the four cache operations of RedisCacheService return Ok and never
an error, so a primary failure is invisible to the calling feature logic. -/
theorem C7_cache_errors_never_propagate (avail : Bool) (cs : CacheState)
    (key value short_code : String) (ttl_seconds now : Nat) :
    (∃ v cs1, RedisCacheService.get avail cs key now = (.ok v, cs1)) ∧
    (∃ cs1, RedisCacheService.set avail cs key value ttl_seconds now = (.ok (), cs1)) ∧
    (∃ cs1, RedisCacheService.delete avail cs key = (.ok (), cs1)) ∧
    (∃ n cs1, RedisCacheService.increment_clicks avail cs short_code now = (.ok n, cs1)) := by
  refine ⟨?_, ?_, ?_, ?_⟩
  · unfold RedisCacheService.get
    by_cases h : avail
    · rw [if_pos h]; exact ⟨_, _, rfl⟩
    · rw [if_neg h]
      cases hm : alookup (cleanup_expired cs.fallback_cache now) key with
      | none => simp only [hm]; exact ⟨_, _, rfl⟩
      | some entry =>
        simp only [hm]
        by_cases hn : now < entry.expires_at
        · rw [if_pos hn]; exact ⟨_, _, rfl⟩
        · rw [if_neg hn]; exact ⟨_, _, rfl⟩
  · unfold RedisCacheService.set
    by_cases h : avail
    · rw [if_pos h]; exact ⟨_, rfl⟩
    · rw [if_neg h]; exact ⟨_, rfl⟩
  · unfold RedisCacheService.delete
    exact ⟨_, rfl⟩
  · unfold RedisCacheService.increment_clicks
    cases hm : (if avail then redis_incr cs.redis ("clicks:" ++ short_code) now else none) with
    | none => simp only [hm]; exact ⟨_, _, rfl⟩
    | some p => simp only [hm]; exact ⟨_, _, rfl⟩

theorem alookup_ainsert_self {α : Type} (m : List (String × α)) (k : String)
    (v : α) : alookup (ainsert m k v) k = some v := by
  simp [ainsert, alookup]

theorem alookup_cleanup_of_live {fc : List (String × CacheEntry)} {now : Nat}
    {key : String} {e : CacheEntry} (h : alookup fc key = some e)
    (hl : now < e.expires_at) :
    alookup (cleanup_expired fc now) key = some e := by
  induction fc with
  | nil => simp [alookup] at h
  | cons p rest ih =>
    obtain ⟨k1, v1⟩ := p
    by_cases hk : k1 = key
    · subst hk
      simp only [alookup, if_pos rfl] at h
      have hv : v1 = e := Option.some.inj h
      subst hv
      simp [cleanup_expired, List.filter_cons, hl, alookup]
    · simp only [alookup, if_neg hk] at h
      by_cases hkeep : now < v1.expires_at
      · simp only [cleanup_expired, List.filter_cons]
        rw [if_pos (by simpa using hkeep)]
        simp only [alookup, if_neg hk]
        exact ih h
      · simp only [cleanup_expired, List.filter_cons]
        rw [if_neg (by simpa using hkeep)]
        exact ih h

theorem alookup_cleanup_none {fc : List (String × CacheEntry)} {now : Nat}
    {key : String} (h : ∀ p ∈ fc, p.1 = key → ¬ now < p.2.expires_at) :
    alookup (cleanup_expired fc now) key = none := by
  cases hm : alookup (cleanup_expired fc now) key with
  | none => rfl
  | some e =>
    exfalso
    have hmem := alookup_mem hm
    have h1 := List.mem_filter.mp hmem
    exact h (key, e) h1.1 rfl (by simpa using h1.2)

/-- C2 counterexample: with the primary tier reachable and missing the key
while the secondary tier holds a live entry for it, get returns absent rather
than the secondary value, refuting the claim that the secondary tier is
consulted on a primary miss. -/
theorem C2_counterexample :
    (RedisCacheService.get true ⟨[], [("k", ⟨"v", 100⟩)]⟩ "k" 0).1 = .ok none ∧
    (RedisCacheService.get true ⟨[], [("k", ⟨"v", 100⟩)]⟩ "k" 0).1 ≠
      .ok (some "v") := by
  refine ⟨rfl, ?_⟩
  intro h
  simp [RedisCacheService.get, redis_lookup, alookup] at h

/-- C2 amended: the secondary tier is consulted only when the primary is
unreachable or the primary command errors; when the primary answers, get
returns the primary answer directly, even on a miss, leaving the secondary
untouched. When the primary fails, get sweeps expired secondary entries and
returns the key's live secondary value if one exists, absent otherwise. -/
theorem C2_get_fallback_only_on_primary_failure (cs : CacheState)
    (key : String) (now : Nat) :
    (RedisCacheService.get true cs key now =
      (.ok (redis_lookup cs.redis key now), cs)) ∧
    (∀ e, alookup cs.fallback_cache key = some e → now < e.expires_at →
      (RedisCacheService.get false cs key now).1 = .ok (some e.value)) ∧
    ((∀ p ∈ cs.fallback_cache, p.1 = key → ¬ now < p.2.expires_at) →
      (RedisCacheService.get false cs key now).1 = .ok none) := by
  refine ⟨?_, ?_, ?_⟩
  · unfold RedisCacheService.get
    rw [if_pos rfl]
  · intro e he hl
    unfold RedisCacheService.get
    rw [if_neg (by simp)]
    simp only [alookup_cleanup_of_live he hl]
    rw [if_pos hl]
  · intro h
    unfold RedisCacheService.get
    rw [if_neg (by simp)]
    simp only [alookup_cleanup_none h]

/-- Witness for the amended C2 at a concrete input: with the primary
unavailable, the live secondary entry is served. -/
theorem C2_get_fallback_only_on_primary_failure_witness :
    (RedisCacheService.get false ⟨[], [("k", ⟨"v", 100⟩)]⟩ "k" 0).1 =
      .ok (some "v") :=
  (C2_get_fallback_only_on_primary_failure ⟨[], [("k", ⟨"v", 100⟩)]⟩ "k" 0).2.1
    ⟨"v", 100⟩ rfl (by decide)

/-- C3 counterexample: when the primary write succeeds, set leaves the
in-process fallback map without any entry for the key (the value goes to the
primary store only), refuting the claim that set always mirrors to the
secondary tier. -/
theorem C3_counterexample :
    alookup (RedisCacheService.set true ⟨[], []⟩ "k" "v" 10 0).2.fallback_cache
      "k" = none ∧
    (RedisCacheService.set true ⟨[], []⟩ "k" "v" 10 0).2.redis =
      [("k", ⟨"v", some 10⟩)] := by
  exact ⟨rfl, rfl⟩

/-- C3 amended: set writes the secondary tier only when the primary write
failed or the primary is unavailable; then the fallback map holds the key
with that value and expires_at = now + ttl and the primary store is
untouched. When the primary write succeeds, set returns with the fallback map
unchanged and the value living in the primary store under the given TTL. -/
theorem C3_set_mirrors_only_on_primary_failure (cs : CacheState)
    (key value : String) (ttl_seconds now : Nat) :
    ((RedisCacheService.set true cs key value ttl_seconds now).2.fallback_cache =
      cs.fallback_cache) ∧
    (0 < ttl_seconds →
      redis_lookup
        (RedisCacheService.set true cs key value ttl_seconds now).2.redis key now =
        some value) ∧
    (alookup
        (RedisCacheService.set false cs key value ttl_seconds now).2.fallback_cache
        key = some ⟨value, now + ttl_seconds⟩) ∧
    ((RedisCacheService.set false cs key value ttl_seconds now).2.redis =
      cs.redis) := by
  refine ⟨rfl, ?_, ?_, rfl⟩
  · intro ht
    unfold RedisCacheService.set
    rw [if_pos rfl]
    unfold redis_lookup
    rw [alookup_ainsert_self]
    simp only
    rw [if_pos (by omega)]
  · unfold RedisCacheService.set
    rw [if_neg (by simp)]
    exact alookup_ainsert_self _ _ _

/-- Witness for the amended C3 at a concrete input: with the primary write
succeeding, the key is in the primary store and not mirrored. -/
theorem C3_set_mirrors_only_on_primary_failure_witness :
    redis_lookup (RedisCacheService.set true ⟨[], []⟩ "k" "v" 10 0).2.redis
      "k" 0 = some "v" :=
  (C3_set_mirrors_only_on_primary_failure ⟨[], []⟩ "k" "v" 10 0).2.1 (by decide)

theorem cache_get_ok (avail : Bool) (cs : CacheState) (key : String)
    (now : Nat) :
    ∃ v cs1, RedisCacheService.get avail cs key now = (.ok v, cs1) := by
  unfold RedisCacheService.get
  by_cases h : avail
  · rw [if_pos h]; exact ⟨_, _, rfl⟩
  · rw [if_neg h]
    cases hm : alookup (cleanup_expired cs.fallback_cache now) key with
    | none => simp only [hm]; exact ⟨_, _, rfl⟩
    | some entry =>
      simp only [hm]
      by_cases hn : now < entry.expires_at
      · rw [if_pos hn]; exact ⟨_, _, rfl⟩
      · rw [if_neg hn]; exact ⟨_, _, rfl⟩

theorem cache_set_ok (avail : Bool) (cs : CacheState) (key value : String)
    (ttl_seconds now : Nat) :
    ∃ cs1, RedisCacheService.set avail cs key value ttl_seconds now =
      (.ok (), cs1) := by
  unfold RedisCacheService.set
  by_cases h : avail
  · rw [if_pos h]; exact ⟨_, rfl⟩
  · rw [if_neg h]; exact ⟨_, rfl⟩

theorem mem_ainsert {α : Type} {m : List (String × α)} {k : String} {v : α}
    {p : String × α} (h : p ∈ ainsert m k v) : p = (k, v) ∨ p ∈ m := by
  rcases List.mem_cons.mp h with h | h
  · exact Or.inl h
  · exact Or.inr (mem_aremove h)

theorem cache_get_some_sources {avail : Bool} {cs : CacheState} {key : String}
    {now : Nat} {v : String} {cs1 : CacheState}
    (h : RedisCacheService.get avail cs key now = (.ok (some v), cs1)) :
    (∃ e, (key, e) ∈ cs.redis ∧ e.value = v) ∨
    (∃ e, (key, e) ∈ cs.fallback_cache ∧ e.value = v) := by
  unfold RedisCacheService.get at h
  by_cases ha : avail
  · rw [if_pos ha] at h
    rw [Prod.mk.injEq] at h
    have h1 : redis_lookup cs.redis key now = some v := Except.ok.inj h.1
    rcases redis_lookup_some h1 with ⟨e, he, hv⟩
    exact Or.inl ⟨e, alookup_mem he, hv⟩
  · rw [if_neg ha] at h
    cases hm : alookup (cleanup_expired cs.fallback_cache now) key with
    | none =>
      simp only [hm] at h
      rw [Prod.mk.injEq] at h
      exact Option.noConfusion (Except.ok.inj h.1)
    | some entry =>
      simp only [hm] at h
      by_cases hn : now < entry.expires_at
      · rw [if_pos hn, Prod.mk.injEq] at h
        have hv : entry.value = v := Option.some.inj (Except.ok.inj h.1)
        exact Or.inr ⟨entry, mem_cleanup (alookup_mem hm), hv⟩
      · rw [if_neg hn, Prod.mk.injEq] at h
        exact Option.noConfusion (Except.ok.inj h.1)

theorem validate_none_ok {urlOk : String → Bool} {isAlnum : Char → Bool}
    {u : String} (hurl : urlOk u = true) :
    CreateUrlRequest.validate urlOk isAlnum ⟨u, none⟩ = .ok () := by
  unfold CreateUrlRequest.validate
  rw [hurl]
  rfl

theorem validate_some_ok {urlOk : String → Bool} {isAlnum : Char → Bool}
    {u cc : String} (hurl : urlOk u = true) (hne : cc ≠ "")
    (hlen : cc.utf8ByteSize ≤ 20)
    (hchars : cc.data.all (fun c => isAlnum c || c == '-') = true) :
    CreateUrlRequest.validate urlOk isAlnum ⟨u, some cc⟩ = .ok () := by
  unfold CreateUrlRequest.validate
  rw [hurl]
  have h1 : (cc.isEmpty || decide (cc.utf8ByteSize > 20)) = false := by
    rw [Bool.or_eq_false_iff]
    constructor
    · exact Bool.eq_false_iff.mpr (fun h => hne ((String.isEmpty_iff cc).mp h))
    · exact decide_eq_false (by omega)
  simp only [Bool.not_true, Bool.false_eq_true, if_false, h1, hchars,
    Bool.not_false, Bool.true_eq_false]

theorem generate_unique_ok_fresh {db : List TinyUrl} {gen : Nat → String}
    {isAlnum : Char → Bool} {oc : Option String} {code : String}
    (h : generate_unique_short_code db gen isAlnum oc = .ok code) :
    existsCode db code = false := by
  unfold generate_unique_short_code at h
  cases oc with
  | none => exact genLoop_ok_fresh _ _ _ h
  | some custom =>
    cases hg : ShortCodeGenerator.generate_custom isAlnum custom with
    | error e =>
      simp only [hg] at h
      exact Except.noConfusion h
    | ok code2 =>
      simp only [hg] at h
      by_cases hex : existsCode db code2 = true
      · rw [if_pos hex] at h
        exact Except.noConfusion h
      · rw [if_neg hex] at h
        have hc : code2 = code := Except.ok.inj h
        subst hc
        exact Bool.eq_false_iff.mpr hex

theorem create_cases {urlOk : String → Bool} {isAlnum : Char → Bool}
    {gen : Nat → String} {a_set : Bool} {cfg : ServiceConfig} {now : Nat}
    {st : SysState} {u : String} {oc : Option String}
    {resp : CreateUrlResponse} {st1 : SysState}
    (h : DefaultUrlService.create_short_url urlOk isAlnum gen a_set cfg now st
      ⟨u, oc⟩ = (.ok resp, st1)) :
    (∃ ex, find_by_long_url st.db u = some ex ∧
      resp = ⟨build_short_url cfg.base_url ex.short_code, ex.long_url,
        ex.short_code, ex.qr_code⟩ ∧
      st1 = st) ∨
    (∃ code, find_by_long_url st.db u = none ∧
      generate_unique_short_code st.db gen isAlnum oc = .ok code ∧
      existsCode st.db code = false ∧
      resp = ⟨build_short_url cfg.base_url code, u, code, none⟩ ∧
      st1 = { db := st.db ++ [savedRecord st.db code u now],
              cache := (RedisCacheService.set a_set st.cache code u
                cfg.cache_ttl now).2 }) := by
  unfold DefaultUrlService.create_short_url at h
  cases hval : CreateUrlRequest.validate urlOk isAlnum ⟨u, oc⟩ with
  | error e =>
    simp only [hval] at h
    rw [Prod.mk.injEq] at h
    exact Except.noConfusion h.1
  | ok uu =>
    simp only [hval] at h
    cases hfind : find_by_long_url st.db u with
    | some ex =>
      simp only [hfind] at h
      rw [Prod.mk.injEq] at h
      exact Or.inl ⟨ex, rfl, (Except.ok.inj h.1).symm, h.2.symm⟩
    | none =>
      simp only [hfind] at h
      cases hgen : generate_unique_short_code st.db gen isAlnum oc with
      | error e =>
        simp only [hgen] at h
        rw [Prod.mk.injEq] at h
        exact Except.noConfusion h.1
      | ok code =>
        simp only [hgen] at h
        by_cases hA : a_set
        · simp only [repo_create, TinyUrl.new, RedisCacheService.set,
            if_pos hA] at h
          rw [Prod.mk.injEq] at h
          refine Or.inr ⟨code, rfl, rfl, generate_unique_ok_fresh hgen,
            (Except.ok.inj h.1).symm, ?_⟩
          rw [← h.2]
          simp [savedRecord, TinyUrl.new, RedisCacheService.set, if_pos hA]
        · simp only [repo_create, TinyUrl.new, RedisCacheService.set,
            if_neg hA] at h
          rw [Prod.mk.injEq] at h
          refine Or.inr ⟨code, rfl, rfl, generate_unique_ok_fresh hgen,
            (Except.ok.inj h.1).symm, ?_⟩
          rw [← h.2]
          simp [savedRecord, TinyUrl.new, RedisCacheService.set, if_neg hA]

/-- C8: get_url_stats fails with NotFound exactly when the durable record is
absent; otherwise the returned clicks equal the cache-resident clicks counter
whenever that counter exists and parses as a 32-bit integer, and the durable
click count otherwise (counter absent or unparseable); concretely, a counter
of 7 with a durable count of 3 reports 7 clicks. -/
theorem C8_stats_preference (a_get : Bool) (st : SysState) (code : String)
    (now : Nat) :
    ((∃ m, (DefaultUrlService.get_url_stats a_get st code now).1 =
        .error (.NotFound m)) ↔ repo_get_stats st.db code = none) ∧
    (∀ url, repo_get_stats st.db code = some url →
      (∀ s n,
        (RedisCacheService.get a_get st.cache ("clicks:" ++ code) now).1 =
          .ok (some s) → parse_i32 s = some n →
        (DefaultUrlService.get_url_stats a_get st code now).1 =
          .ok ⟨url.short_code, url.long_url, n, url.created_at,
            url.updated_at⟩) ∧
      (∀ s,
        (RedisCacheService.get a_get st.cache ("clicks:" ++ code) now).1 =
          .ok (some s) → parse_i32 s = none →
        (DefaultUrlService.get_url_stats a_get st code now).1 =
          .ok ⟨url.short_code, url.long_url, url.clicks, url.created_at,
            url.updated_at⟩) ∧
      ((RedisCacheService.get a_get st.cache ("clicks:" ++ code) now).1 =
          .ok none →
        (DefaultUrlService.get_url_stats a_get st code now).1 =
          .ok ⟨url.short_code, url.long_url, url.clicks, url.created_at,
            url.updated_at⟩)) ∧
    (DefaultUrlService.get_url_stats true
        ⟨[⟨1, "c", "x", none, 3, 0, 0⟩], ⟨[("clicks:c", ⟨"7", none⟩)], []⟩⟩
        "c" 0).1 = .ok ⟨"c", "x", 7, 0, 0⟩ := by
  refine ⟨?_, ?_, rfl⟩
  · cases hfound : repo_get_stats st.db code with
    | none =>
      constructor
      · intro _; rfl
      · intro _
        refine ⟨"Short code " ++ code ++ " not found", ?_⟩
        unfold DefaultUrlService.get_url_stats
        simp only [hfound]
    | some url =>
      constructor
      · intro ⟨m, hm⟩
        exfalso
        obtain ⟨v, cs1, hget⟩ :=
          cache_get_ok a_get st.cache ("clicks:" ++ code) now
        unfold DefaultUrlService.get_url_stats at hm
        simp only [hfound, hget] at hm
        exact Except.noConfusion hm
      · intro hn
        exact Option.noConfusion hn
  · intro url hfound
    obtain ⟨v, cs1, hget⟩ := cache_get_ok a_get st.cache ("clicks:" ++ code) now
    refine ⟨?_, ?_, ?_⟩
    · intro s n hs hp
      have hv : v = some s := by
        rw [hget] at hs
        exact Except.ok.inj hs
      subst hv
      unfold DefaultUrlService.get_url_stats
      simp only [hfound, hget, hp, Option.getD_some]
    · intro s hs hp
      have hv : v = some s := by
        rw [hget] at hs
        exact Except.ok.inj hs
      subst hv
      unfold DefaultUrlService.get_url_stats
      simp only [hfound, hget, hp, Option.getD_none]
    · intro hs
      have hv : v = none := by
        rw [hget] at hs
        exact Except.ok.inj hs
      subst hv
      unfold DefaultUrlService.get_url_stats
      simp only [hfound, hget]

/-- Witness for C8 at a concrete input: the cache counter 7 is preferred over
the durable count 3. -/
theorem C8_stats_preference_witness :
    (DefaultUrlService.get_url_stats true
        ⟨[⟨1, "c", "x", none, 3, 0, 0⟩], ⟨[("clicks:c", ⟨"7", none⟩)], []⟩⟩
        "c" 0).1 = .ok ⟨"c", "x", 7, 0, 0⟩ :=
  (((C8_stats_preference true
      ⟨[⟨1, "c", "x", none, 3, 0, 0⟩], ⟨[("clicks:c", ⟨"7", none⟩)], []⟩⟩
      "c" 0).2.1 ⟨1, "c", "x", none, 3, 0, 0⟩ rfl).1 "7" 7 rfl rfl)

theorem find_by_long_url_append_fresh {db : List TinyUrl} {u : String}
    {r : TinyUrl} (hnone : find_by_long_url db u = none) (hr : r.long_url = u) :
    find_by_long_url (db ++ [r]) u = some r := by
  unfold find_by_long_url at hnone ⊢
  have hfil : db.filter (fun x => decide (x.long_url = u)) = [] := by
    by_contra hne
    rcases mostRecent_ne_nil hne with ⟨c, hc⟩
    rw [hc] at hnone
    exact Option.noConfusion hnone
  rw [List.filter_append, hfil]
  simp [hr, mostRecent]

/-- C5: with no custom code and no dedup hit, create_short_url runs the
generator against the durable store at most 10 times. If every one of the
first 10 generator outputs already exists, it fails with an Internal error
after exactly 10 generation attempts (only the first 10 oracle outputs are
ever consulted) and the state, durable store included, is unchanged; while
the first output among the first 10 that does not collide is the code
returned. -/
theorem C5_collision_exhaustion (urlOk : String → Bool)
    (isAlnum : Char → Bool) (gen : Nat → String)
    (a_set : Bool) (cfg : ServiceConfig) (now : Nat) (st : SysState)
    (u : String) (hurl : urlOk u = true)
    (hfind : find_by_long_url st.db u = none) :
    ((∀ i, i < 10 → existsCode st.db (gen i) = true) →
      DefaultUrlService.create_short_url urlOk isAlnum gen a_set cfg now st
        ⟨u, none⟩ =
        (.error (.Internal
          "Failed to generate unique short code after maximum attempts"), st)) ∧
    (∀ gen2 : Nat → String, (∀ i, i < 10 → gen2 i = gen i) →
      DefaultUrlService.create_short_url urlOk isAlnum gen2 a_set cfg now st
        ⟨u, none⟩ =
        DefaultUrlService.create_short_url urlOk isAlnum gen a_set cfg now st
          ⟨u, none⟩) ∧
    (∀ j, j < 10 → (∀ i, i < j → existsCode st.db (gen i) = true) →
      existsCode st.db (gen j) = false →
      ∃ resp st2,
        DefaultUrlService.create_short_url urlOk isAlnum gen a_set cfg now st
          ⟨u, none⟩ = (.ok resp, st2) ∧ resp.short_code = gen j) := by
  have hv : CreateUrlRequest.validate urlOk isAlnum ⟨u, none⟩ = .ok () :=
    validate_none_ok hurl
  refine ⟨?_, ?_, ?_⟩
  · intro hall
    have hloop : genLoop st.db gen 0 MAX_ATTEMPTS =
        .error (.Internal
          "Failed to generate unique short code after maximum attempts") :=
      genLoop_all_collide MAX_ATTEMPTS 0
        (fun i _ h2 => hall i (by simpa [MAX_ATTEMPTS] using h2))
    unfold DefaultUrlService.create_short_url
    simp only [hv, hfind, generate_unique_short_code, hloop]
  · intro gen2 hsame
    have hloop : genLoop st.db gen2 0 MAX_ATTEMPTS =
        genLoop st.db gen 0 MAX_ATTEMPTS :=
      genLoop_congr MAX_ATTEMPTS 0
        (fun i _ h2 => hsame i (by simpa [MAX_ATTEMPTS] using h2))
    unfold DefaultUrlService.create_short_url
    simp only [hv, hfind, generate_unique_short_code, hloop]
  · intro j hj hall hfresh
    have hloop : genLoop st.db gen 0 MAX_ATTEMPTS = .ok (gen j) :=
      genLoop_first_wins MAX_ATTEMPTS 0 j (Nat.zero_le j)
        (by simpa [MAX_ATTEMPTS] using hj)
        (fun i _ h2 => hall i h2) hfresh
    unfold DefaultUrlService.create_short_url
    simp only [hv, hfind, generate_unique_short_code, hloop]
    obtain ⟨cs1, hset⟩ := cache_set_ok a_set st.cache (gen j)
      (TinyUrl.new (gen j) u now).long_url cfg.cache_ttl now
    simp only [repo_create, TinyUrl.new] at hset ⊢
    rw [hset]
    exact ⟨_, _, rfl, rfl⟩

/-- Witness for C5 at a concrete input: a stub generator always returning the
one short code already present in the store makes create_short_url fail with
the Internal exhaustion error, leaving the state unchanged. -/
theorem C5_collision_exhaustion_witness :
    DefaultUrlService.create_short_url (fun _ => true) Char.isAlphanum
      (fun _ => "c") true
      ⟨"b", 6, 60⟩ 0 ⟨[⟨1, "c", "x", none, 0, 0, 0⟩], ⟨[], []⟩⟩ ⟨"y", none⟩ =
      (.error (.Internal
        "Failed to generate unique short code after maximum attempts"),
       ⟨[⟨1, "c", "x", none, 0, 0, 0⟩], ⟨[], []⟩⟩) :=
  (C5_collision_exhaustion (fun _ => true) Char.isAlphanum (fun _ => "c") true
    ⟨"b", 6, 60⟩ 0
    ⟨[⟨1, "c", "x", none, 0, 0, 0⟩], ⟨[], []⟩⟩ "y" rfl rfl).1
    (fun _ _ => rfl)

/-- C4: when the long URL already has a durable record, create_short_url with
no custom code returns the most-recently-created matching record's short code
and changes nothing (no new durable record, no cache write); consequently two
consecutive calls return the same short code and the second call never
changes the state. -/
theorem C4_idempotent_dedup (urlOk : String → Bool) (isAlnum : Char → Bool)
    (gen : Nat → String)
    (a_set : Bool) (cfg : ServiceConfig) (now : Nat) (st : SysState)
    (u : String) (hurl : urlOk u = true) :
    (∀ ex, find_by_long_url st.db u = some ex →
      DefaultUrlService.create_short_url urlOk isAlnum gen a_set cfg now st
        ⟨u, none⟩ =
        (.ok ⟨build_short_url cfg.base_url ex.short_code, ex.long_url,
          ex.short_code, ex.qr_code⟩, st) ∧
      ex ∈ st.db ∧ ex.long_url = u ∧
      (∀ r ∈ st.db, r.long_url = u → r.created_at ≤ ex.created_at)) ∧
    (∀ resp1 st1,
      DefaultUrlService.create_short_url urlOk isAlnum gen a_set cfg now st
        ⟨u, none⟩ = (.ok resp1, st1) →
      ∀ gen2 a_set2 now2, ∃ resp2,
        DefaultUrlService.create_short_url urlOk isAlnum gen2 a_set2 cfg now2
          st1 ⟨u, none⟩ = (.ok resp2, st1) ∧
        resp2.short_code = resp1.short_code) := by
  have hv : CreateUrlRequest.validate urlOk isAlnum ⟨u, none⟩ = .ok () :=
    validate_none_ok hurl
  constructor
  · intro ex hfind
    obtain ⟨hmem, hexu, hmax⟩ := find_by_long_url_spec hfind
    refine ⟨?_, hmem, hexu, hmax⟩
    unfold DefaultUrlService.create_short_url
    simp only [hv, hfind]
  · intro resp1 st1 hcreate gen2 a_set2 now2
    rcases create_cases hcreate with
      ⟨ex, hfind, hresp, hst⟩ | ⟨code, hnone, hgen, hfresh, hresp, hst⟩
    · subst hst
      refine ⟨⟨build_short_url cfg.base_url ex.short_code, ex.long_url,
        ex.short_code, ex.qr_code⟩, ?_, ?_⟩
      · unfold DefaultUrlService.create_short_url
        simp only [validate_none_ok hurl, hfind]
      · rw [hresp]
    · have hsaved : (savedRecord st.db code u now).long_url = u := rfl
      have hfind1 : find_by_long_url st1.db u = some (savedRecord st.db code u now) := by
        rw [hst]
        exact find_by_long_url_append_fresh hnone hsaved
      refine ⟨⟨build_short_url cfg.base_url (savedRecord st.db code u now).short_code,
        (savedRecord st.db code u now).long_url,
        (savedRecord st.db code u now).short_code,
        (savedRecord st.db code u now).qr_code⟩, ?_, ?_⟩
      · unfold DefaultUrlService.create_short_url
        simp only [validate_none_ok hurl, hfind1]
      · rw [hresp]
        rfl

/-- Witness for C4 at a concrete input: with a record for the URL already
present, create returns its short code and leaves the state unchanged. -/
theorem C4_idempotent_dedup_witness :
    DefaultUrlService.create_short_url (fun _ => true) Char.isAlphanum
      (fun _ => "z") true
      ⟨"b", 6, 60⟩ 5 ⟨[⟨1, "c", "x", none, 0, 0, 0⟩], ⟨[], []⟩⟩ ⟨"x", none⟩ =
      (.ok ⟨"b/c", "x", "c", none⟩, ⟨[⟨1, "c", "x", none, 0, 0, 0⟩], ⟨[], []⟩⟩) :=
  ((C4_idempotent_dedup (fun _ => true) Char.isAlphanum (fun _ => "z") true
    ⟨"b", 6, 60⟩ 5
    ⟨[⟨1, "c", "x", none, 0, 0, 0⟩], ⟨[], []⟩⟩ "x" rfl).1
    ⟨1, "c", "x", none, 0, 0, 0⟩ rfl).1

/-- C10 (implicit): when the long URL already has a durable record, the dedup
check runs before any custom-code handling, so create_short_url returns the
existing record's short code even for a request carrying a valid custom code;
the custom code's existence is never checked and the call cannot fail with
AlreadyExists, whatever other record may hold that custom code. -/
theorem C10_dedup_preempts_custom_code (urlOk : String → Bool)
    (isAlnum : Char → Bool)
    (gen : Nat → String) (a_set : Bool) (cfg : ServiceConfig) (now : Nat)
    (st : SysState) (u cc : String) (hurl : urlOk u = true) (hne : cc ≠ "")
    (hlen : cc.utf8ByteSize ≤ 20)
    (hchars : cc.data.all (fun c => isAlnum c || c == '-') = true)
    (ex : TinyUrl) (hfind : find_by_long_url st.db u = some ex) :
    DefaultUrlService.create_short_url urlOk isAlnum gen a_set cfg now st
      ⟨u, some cc⟩ =
      (.ok ⟨build_short_url cfg.base_url ex.short_code, ex.long_url,
        ex.short_code, ex.qr_code⟩, st) ∧
    (∀ m st2,
      DefaultUrlService.create_short_url urlOk isAlnum gen a_set cfg now st
        ⟨u, some cc⟩ ≠ (.error (.AlreadyExists m), st2)) := by
  have hv := validate_some_ok hurl hne hlen hchars
  have heq : DefaultUrlService.create_short_url urlOk isAlnum gen a_set cfg
      now st ⟨u, some cc⟩ =
      (.ok ⟨build_short_url cfg.base_url ex.short_code, ex.long_url,
        ex.short_code, ex.qr_code⟩, st) := by
    unfold DefaultUrlService.create_short_url
    simp only [hv, hfind]
  refine ⟨heq, ?_⟩
  intro m st2 habs
  rw [heq, Prod.mk.injEq] at habs
  exact Except.noConfusion habs.1

/-- Witness for C10 at a concrete input: the requested custom code is held by
another record, yet the call dedups on the long URL and succeeds. -/
theorem C10_dedup_preempts_custom_code_witness :
    DefaultUrlService.create_short_url (fun _ => true) Char.isAlphanum
      (fun _ => "z") true
      ⟨"b", 6, 60⟩ 5
      ⟨[⟨1, "c", "x", none, 0, 0, 0⟩, ⟨2, "cc", "w", none, 0, 0, 0⟩], ⟨[], []⟩⟩
      ⟨"x", some "cc"⟩ =
      (.ok ⟨"b/c", "x", "c", none⟩,
       ⟨[⟨1, "c", "x", none, 0, 0, 0⟩, ⟨2, "cc", "w", none, 0, 0, 0⟩],
        ⟨[], []⟩⟩) :=
  (C10_dedup_preempts_custom_code (fun _ => true) Char.isAlphanum
    (fun _ => "z") true
    ⟨"b", 6, 60⟩ 5
    ⟨[⟨1, "c", "x", none, 0, 0, 0⟩, ⟨2, "cc", "w", none, 0, 0, 0⟩], ⟨[], []⟩⟩
    "x" "cc" rfl (by decide) (by decide) (by decide)
    ⟨1, "c", "x", none, 0, 0, 0⟩ (by decide)).1

theorem coherent_after_create {db : List TinyUrl} {cs : CacheState}
    (hcoh : cache_coherent db cs) (code u : String) (ttl now0 : Nat)
    (a_set : Bool) (saved : TinyUrl) (hsc : saved.short_code = code)
    (hsu : saved.long_url = u) :
    cache_coherent (db ++ [saved])
      (RedisCacheService.set a_set cs code u ttl now0).2 := by
  have hsmem : saved ∈ db ++ [saved] :=
    List.mem_append_right _ (List.mem_singleton.mpr rfl)
  unfold RedisCacheService.set
  by_cases hA : a_set
  · rw [if_pos hA]
    constructor
    · intro p hp
      rcases mem_ainsert hp with hpv | hpm
      · subst hpv
        exact ⟨saved, hsmem, hsc, hsu⟩
      · rcases hcoh.1 p hpm with ⟨r, hr, h1, h2⟩
        exact ⟨r, List.mem_append_left _ hr, h1, h2⟩
    · intro p hp
      rcases hcoh.2 p hp with ⟨r, hr, h1, h2⟩
      exact ⟨r, List.mem_append_left _ hr, h1, h2⟩
  · rw [if_neg hA]
    constructor
    · intro p hp
      rcases hcoh.1 p hp with ⟨r, hr, h1, h2⟩
      exact ⟨r, List.mem_append_left _ hr, h1, h2⟩
    · intro p hp
      rcases mem_ainsert hp with hpv | hpm
      · subst hpv
        exact ⟨saved, hsmem, hsc, hsu⟩
      · rcases hcoh.2 p hpm with ⟨r, hr, h1, h2⟩
        exact ⟨r, List.mem_append_left _ hr, h1, h2⟩

theorem get_original_url_ok (a_get a_incr a_set bg : Bool)
    (cfg : ServiceConfig) (now : Nat) (st : SysState) (code u : String)
    (hcoh : cache_coherent st.db st.cache)
    (hex : ∃ r, r ∈ st.db ∧ r.short_code = code ∧ r.long_url = u)
    (huniqv : ∀ r ∈ st.db, r.short_code = code → r.long_url = u) :
    (DefaultUrlService.get_original_url a_get a_incr a_set bg cfg now st
      code).1 = .ok u := by
  obtain ⟨v, cs1, hget⟩ := cache_get_ok a_get st.cache code now
  unfold DefaultUrlService.get_original_url
  rw [hget]
  cases v with
  | some cached =>
    have hcu : cached = u := by
      rcases cache_get_some_sources hget with ⟨e, hmem, hv⟩ | ⟨e, hmem, hv⟩
      · rcases hcoh.1 _ hmem with ⟨r, hr, hrc, hru⟩
        rw [← hv, ← hru]
        exact huniqv r hr hrc
      · rcases hcoh.2 _ hmem with ⟨r, hr, hrc, hru⟩
        rw [← hv, ← hru]
        exact huniqv r hr hrc
    rw [hcu]
  | none =>
    rcases hex with ⟨r0, hr0, hrc0, _⟩
    obtain ⟨r2, hr2⟩ := find_by_short_code_isSome r0 hr0 hrc0
    rw [hr2]
    obtain ⟨hmem2, hcode2⟩ := find_by_short_code_mem hr2
    have hu2 : r2.long_url = u := huniqv r2 hmem2 hcode2
    obtain ⟨cs2, hset⟩ :=
      cache_set_ok a_set cs1 code r2.long_url cfg.cache_ttl now
    rw [hu2] at hset
    simp only [hset, hu2]

/-- C1: for every valid long URL, creating a short URL and then resolving the
returned short code yields the original URL again, given the standing
invariants that short codes are unique in the durable store and that the
cache tiers are coherent with it; the conclusion holds for every availability
outcome of the resolve-side cache calls, so it covers both the resolve served
from the cache entry written at creation and the resolve served from the
durable record on a cache miss. -/
theorem C1_round_trip (urlOk : String → Bool) (isAlnum : Char → Bool)
    (gen : Nat → String)
    (a_set : Bool) (cfg : ServiceConfig) (now : Nat) (st : SysState)
    (u : String) (oc : Option String) (resp : CreateUrlResponse)
    (st1 : SysState)
    (hcoh : cache_coherent st.db st.cache) (huniq : codes_unique st.db)
    (hcreate : DefaultUrlService.create_short_url urlOk isAlnum gen a_set cfg
      now st ⟨u, oc⟩ = (.ok resp, st1))
    (a_get a_incr a_set2 bg : Bool) (now2 : Nat) :
    (DefaultUrlService.get_original_url a_get a_incr a_set2 bg cfg now2 st1
      resp.short_code).1 = .ok u := by
  rcases create_cases hcreate with
    ⟨ex, hfind, hresp, hst⟩ | ⟨code, hnone, hgen, hfresh, hresp, hst⟩
  · subst hst
    obtain ⟨hmem, hexu, _⟩ := find_by_long_url_spec hfind
    have hrespc : resp.short_code = ex.short_code := by rw [hresp]
    rw [hrespc]
    apply get_original_url_ok
    · exact hcoh
    · exact ⟨ex, hmem, rfl, hexu⟩
    · intro r hr hrc
      rw [huniq r hr ex hmem hrc]
      exact hexu
  · subst hst
    have hrespc : resp.short_code = code := by rw [hresp]
    rw [hrespc]
    apply get_original_url_ok
    · exact coherent_after_create hcoh code u cfg.cache_ttl now a_set
        (savedRecord st.db code u now) rfl rfl
    · exact ⟨savedRecord st.db code u now,
        List.mem_append_right _ (List.mem_singleton.mpr rfl), rfl, rfl⟩
    · intro r hr hrc
      rcases List.mem_append.mp hr with h | h
      · exact absurd hrc (existsCode_false_iff.mp hfresh r h)
      · rw [List.mem_singleton.mp h]
        rfl

/-- Witness for C1 at a concrete input: a full create followed by a resolve
of the returned code over an initially empty system returns the created URL. -/
theorem C1_round_trip_witness :
    (DefaultUrlService.get_original_url true true true true ⟨"b", 6, 60⟩ 0
      ⟨[⟨1, "abc", "x", none, 0, 0, 0⟩], ⟨[("abc", ⟨"x", some 60⟩)], []⟩⟩
      "abc").1 = .ok "x" :=
  C1_round_trip (fun _ => true) Char.isAlphanum (fun _ => "abc") true
    ⟨"b", 6, 60⟩ 0
    ⟨[], ⟨[], []⟩⟩ "x" none ⟨"b/abc", "x", "abc", none⟩
    ⟨[⟨1, "abc", "x", none, 0, 0, 0⟩], ⟨[("abc", ⟨"x", some 60⟩)], []⟩⟩
    ⟨by intro p hp; simp at hp, by intro p hp; simp at hp⟩
    (by intro r hr; simp at hr)
    rfl true true true true 0
